import Mathlib

/-!
SimpleX native boundary.

A shallow embedding of the two C files of the boundary:

* `apps/ios/SimpleXChat/hs_init.c`: `haskell_init`, which builds the
  argument vector handed to the Haskell runtime;
* `apps/multiplatform/common/src/commonMain/cpp/desktop/simplex-api.c`: the
  JNI bridge (`encode_to_utf8_chars`, `decode_to_utf8_string` and the
  `Java_chat_simplex_common_platform_CoreKt_*` entry points).

C memory is modelled by lists of bytes, a C `int` by an `Int` that is wrapped
to 32 bits where the code can overflow, and a read or write outside an object
(undefined behaviour in C) by `none`.
-/

namespace SimpleX

/-! ## Bytes and C strings -/

/-- One byte of C memory, as its unsigned value. -/
abbrev Byte := Fin 256

/-- The byte with the low eight bits of `n`. -/
def byteOf (n : Nat) : Byte := ⟨n % 256, Nat.mod_lt n (by decide)⟩

/-- The characters of a C string literal, without the terminating NUL. -/
def lit (s : String) : List Byte :=
  s.toList.map (fun c => byteOf c.toNat)

/-- The C string stored in a buffer: the bytes before the first NUL, or `none`
when the buffer holds no NUL (reading the string would leave the buffer). -/
def cstr (buf : List Byte) : Option (List Byte) :=
  if (0 : Byte) ∈ buf then some (buf.takeWhile (fun b => b ≠ 0)) else none

/-- The bytes `strncpy(dst, src, n)` writes to `dst[0..n)`: the characters of
`src` up to its NUL, at most `n` of them, then NUL padding up to `n` bytes.
`src` lists the bytes at the source pointer; the string ends at its first NUL,
or at the end of the list, where its terminator stands. -/
def strncpy : Nat → List Byte → List Byte
  | 0, _ => []
  | n + 1, [] => List.replicate (n + 1) 0
  | n + 1, b :: src => if b = 0 then List.replicate (n + 1) 0 else b :: strncpy n src

/-- The function `strlen`: the number of bytes before the first NUL; `none`
when the buffer holds no NUL. -/
def strlen (buf : List Byte) : Option Nat :=
  (cstr buf).map List.length

/-- Overwrite `buf[off .. off + data.length)` with `data`. -/
def writeAt (buf : List Byte) (off : Nat) (data : List Byte) : List Byte :=
  buf.take off ++ data ++ buf.drop (off + data.length)

/-! ## hs_init.c -/

/-- A `char *` stored in `argv`: null, a pointer to a string literal, or a
pointer to one of the two static buffers of `haskell_init`. -/
inductive ArgPtr where
  | null : ArgPtr
  | str (s : List Byte) : ArgPtr
  | ol : ArgPtr
  | po : ArgPtr
  deriving DecidableEq

/-- The function-static buffers `static char ol[1024]` and
`static char po[1024]`; they keep their contents between calls. -/
structure Statics where
  ol : List Byte
  po : List Byte
  deriving DecidableEq

/-- The initializers `ol[1024] = "-ol"` and `po[1024] = "-po"`: the three
characters, the rest zero. -/
def Statics.init : Statics :=
  { ol := lit "-ol" ++ List.replicate 1021 0
    po := lit "-po" ++ List.replicate 1021 0 }

/-- The invariant of the static buffers: 1024 bytes each, starting with the
three characters of their initializer, which `haskell_init` never writes. -/
def Statics.WF (st : Statics) : Prop :=
  st.ol.length = 1024 ∧ st.ol.take 3 = lit "-ol" ∧
  st.po.length = 1024 ∧ st.po.take 3 = lit "-po"

/-- The locals `char *argv[32]` and `int argc` of `haskell_init`. -/
structure Frame where
  argv : List ArgPtr
  argc : Nat

/-- The declarations `char *argv[32] = {0,}; int argc = 0;`. -/
def Frame.init : Frame :=
  { argv := List.replicate 32 ArgPtr.null, argc := 0 }

/-- The statement `argv[argc++] = a;`. A store past the end of `argv` is
undefined behaviour: `none`. -/
def Frame.push (f : Frame) (a : ArgPtr) : Option Frame :=
  if f.argc < f.argv.length then
    some { argv := f.argv.set f.argc a, argc := f.argc + 1 }
  else none

/-- What `hs_init_with_rtsopts(&argc, &pargv)` is called with, and the static
buffers as they stand at the call. -/
structure RtsCall where
  argc : Nat
  argv : List ArgPtr
  statics : Statics

/-- The body of `haskell_init`, with `nse` already tested against zero. -/
def haskell_init_body (st : Statics) (nse : Bool)
    (eventlog heap_profile : Option (List Byte)) : Option RtsCall := do
  let f := Frame.init
  -- common args
  let f ← if nse then f.push (.str (lit "simplex-nse")) else f.push (.str (lit "simplex"))
  let f ← f.push (.str (lit "+RTS"))
  let f ←
    if nse then do
      let f ← f.push (.str (lit "-S"))
      let f ← f.push (.str (lit "-A1m"))
      let f ← f.push (.str (lit "-H2m"))
      let f ← f.push (.str (lit "-M12m"))
      let f ← f.push (.str (lit "-F0.5"))
      f.push (.str (lit "-Fd1"))
    else do
      let f ← f.push (.str (lit "-T"))
      let f ← f.push (.str (lit "-A64m"))
      f.push (.str (lit "-H64m"))
  let (st, f) ←
    match eventlog with
    | some p => do
      let st := { st with ol := writeAt st.ol 3 (strncpy (1024 - 3) p) }
      let f ← f.push .ol
      let f ← f.push (.str (lit "-l-agu"))
      pure (st, f)
    | none => pure (st, f)
  let (st, f) ←
    match heap_profile with
    | some p => do
      let st := { st with po := writeAt st.po 3 (strncpy (1024 - 3) p) }
      let f ← f.push .po
      let f ← f.push (.str (lit "-hT"))
      pure (st, f)
    | none => pure (st, f)
  let f ←
    if nse then f.push (.str (lit "-c"))
    else
      let non_moving_gc := heap_profile.isNone
      if non_moving_gc then f.push (.str (lit "-xn")) else pure f
  pure { argc := f.argc, argv := f.argv, statics := st }

/-- The function `haskell_init(int nse, const char *eventlog, const char
*heap_profile)`, run with the static buffers in state `st`. A null pointer is
`none`; a non-null one is given by the bytes at the pointer (see `strncpy`). -/
def haskell_init (st : Statics) (nse : Int)
    (eventlog heap_profile : Option (List Byte)) : Option RtsCall :=
  haskell_init_body st (decide (nse ≠ 0)) eventlog heap_profile

/-- The arguments the runtime is given: `argv[0 .. argc)`. -/
def RtsCall.args (r : RtsCall) : List ArgPtr :=
  r.argv.take r.argc

/-- The C string an argument points to, if it is one: a literal is
NUL-terminated; a static buffer is read up to its first NUL. -/
def RtsCall.argString (r : RtsCall) : ArgPtr → Option (List Byte)
  | .null => none
  | .str s => some s
  | .ol => cstr r.statics.ol
  | .po => cstr r.statics.po

/-- The arguments as C strings. -/
def RtsCall.argStrings (r : RtsCall) : List (Option (List Byte)) :=
  r.args.map r.argString

/-- The arguments `haskell_init` stores, in order (used to state what the
stores of `haskell_init_body` add up to). -/
def expectedArgs (nse : Bool) (eventlog heap_profile : Option (List Byte)) : List ArgPtr :=
  (if nse then
    [.str (lit "simplex-nse"), .str (lit "+RTS"), .str (lit "-S"), .str (lit "-A1m"),
     .str (lit "-H2m"), .str (lit "-M12m"), .str (lit "-F0.5"), .str (lit "-Fd1")]
   else
    [.str (lit "simplex"), .str (lit "+RTS"), .str (lit "-T"), .str (lit "-A64m"),
     .str (lit "-H64m")])
  ++ (if eventlog.isSome then [.ol, .str (lit "-l-agu")] else [])
  ++ (if heap_profile.isSome then [.po, .str (lit "-hT")] else [])
  ++ (if nse then [.str (lit "-c")] else if heap_profile.isNone then [.str (lit "-xn")] else [])

/-- The static buffers after a call. -/
def expectedStatics (st : Statics) (eventlog heap_profile : Option (List Byte)) : Statics :=
  { ol := match eventlog with
      | some p => writeAt st.ol 3 (strncpy 1021 p)
      | none => st.ol
    po := match heap_profile with
      | some p => writeAt st.po 3 (strncpy 1021 p)
      | none => st.po }

/-- Two successive calls of `haskell_init`: the second one runs with the
static buffers as the first one left them. The result is the second call's. -/
def haskell_init_twice (st : Statics)
    (nse1 : Int) (eventlog1 heap_profile1 : Option (List Byte))
    (nse2 : Int) (eventlog2 heap_profile2 : Option (List Byte)) : Option RtsCall :=
  (haskell_init st nse1 eventlog1 heap_profile1).bind
    (fun r1 => haskell_init r1.statics nse2 eventlog2 heap_profile2)

/-- A path that fits one of the static buffers with its terminator: no NUL
among its bytes and at most 1020 of them, so that `strncpy` with count 1021
writes at least one NUL after it. -/
def fitsWithNul (p : List Byte) : Prop :=
  (∀ b ∈ p, b ≠ 0) ∧ p.length ≤ 1020

/-- Test of a stored pointer: true on a pointer to a literal whose characters
pass `q`, and on every other pointer. -/
def ArgPtr.strSatisfies (q : List Byte → Bool) : ArgPtr → Bool
  | .str s => q s
  | _ => true

/-- A string that is no `-ol...` and no `-po...` and has at most 11
characters, as every literal of `haskell_init` is. -/
def plainFlag (s : List Byte) : Bool :=
  !(lit "-ol").isPrefixOf s && !(lit "-po").isPrefixOf s && decide (s.length ≤ 11)

/-! ## simplex-api.c -/

/-! ### The JVM side: strings, UTF-8, byte arrays

A host string is a `String`, a sequence of Unicode scalar values; a null
`jstring` is `none`. `String.getBytes("UTF-8")` and `Charset.decode` are JVM
library methods; they are modelled by the UTF-8 encoding form of the Unicode
standard. -/

/-- The UTF-8 bytes of one scalar value. -/
def utf8EncodeChar (c : Char) : List Byte :=
  let n := c.toNat
  if n < 0x80 then [byteOf n]
  else if n < 0x800 then [byteOf (0xC0 + n / 0x40), byteOf (0x80 + n % 0x40)]
  else if n < 0x10000 then
    [byteOf (0xE0 + n / 0x1000), byteOf (0x80 + n / 0x40 % 0x40), byteOf (0x80 + n % 0x40)]
  else
    [byteOf (0xF0 + n / 0x40000), byteOf (0x80 + n / 0x1000 % 0x40),
      byteOf (0x80 + n / 0x40 % 0x40), byteOf (0x80 + n % 0x40)]

/-- The method `String.getBytes("UTF-8")`, on the characters of the string. -/
def getBytesUTF8 : List Char → List Byte
  | [] => []
  | c :: cs => utf8EncodeChar c ++ getBytesUTF8 cs

/-- The six payload bits of the byte at index `i`, if there is one and it is a
continuation byte `10xxxxxx`. -/
def contBits (bs : List Byte) (i : Nat) : Option Nat :=
  match bs.get? i with
  | some b => if 0x80 ≤ b.val ∧ b.val < 0xC0 then some (b.val - 0x80) else none
  | none => none

/-- The character U+FFFD that `Charset.decode` puts for malformed input. -/
def replacementChar : Char := Char.ofNat 0xFFFD

/-- One step of the decoder at lead byte `b0` followed by `rest`: the character
and the number of bytes of `rest` it takes. Overlong forms, surrogates and
values above U+10FFFF are malformed; a malformed lead byte yields U+FFFD and
takes no further byte. -/
def utf8DecodeStep (b0 : Byte) (rest : List Byte) : Char × Nat :=
  if b0.val < 0x80 then (Char.ofNat b0.val, 0)
  else if b0.val < 0xC2 then (replacementChar, 0)
  else if b0.val < 0xE0 then
    match contBits rest 0 with
    | some x1 => (Char.ofNat ((b0.val - 0xC0) * 0x40 + x1), 1)
    | none => (replacementChar, 0)
  else if b0.val < 0xF0 then
    match contBits rest 0, contBits rest 1 with
    | some x1, some x2 =>
      let n := (b0.val - 0xE0) * 0x1000 + x1 * 0x40 + x2
      if 0x800 ≤ n ∧ ¬ (0xD800 ≤ n ∧ n < 0xE000) then (Char.ofNat n, 2)
      else (replacementChar, 0)
    | _, _ => (replacementChar, 0)
  else if b0.val < 0xF5 then
    match contBits rest 0, contBits rest 1, contBits rest 2 with
    | some x1, some x2, some x3 =>
      let n := (b0.val - 0xF0) * 0x40000 + x1 * 0x1000 + x2 * 0x40 + x3
      if 0x10000 ≤ n ∧ n < 0x110000 then (Char.ofNat n, 3)
      else (replacementChar, 0)
    | _, _, _ => (replacementChar, 0)
  else (replacementChar, 0)

/-- The decoder loop; every step takes at least one byte, so `fuel` equal to
the number of bytes is enough. -/
def utf8DecodeLoop : Nat → List Byte → List Char
  | 0, _ => []
  | _ + 1, [] => []
  | fuel + 1, b0 :: rest =>
    (utf8DecodeStep b0 rest).1 :: utf8DecodeLoop fuel (rest.drop (utf8DecodeStep b0 rest).2)

/-- The call `Charset.forName("UTF-8").decode(bb).toString()` on the bytes of
the buffer. -/
def charsetDecodeUTF8 (bs : List Byte) : String :=
  String.mk (utf8DecodeLoop bs.length bs)

/-! ### 32-bit arithmetic of the length prefix -/

/-- The value of a byte read through `jbyte *` (`signed char`). -/
def jbyte (b : Byte) : Int :=
  if b.val < 128 then (b.val : Int) else (b.val : Int) - 256

/-- Conversion to `int`: the value modulo 2^32 in `[-2^31, 2^31)`. -/
def wrap32 (x : Int) : Int :=
  (x + 2 ^ 31) % 2 ^ 32 - 2 ^ 31

/-- Conversion of an `int` to `unsigned int`: the value modulo 2^32. -/
def asUnsigned32 (x : Int) : Nat :=
  (x % 2 ^ 32).toNat

/-- The operand `(res[i] << k) & mask` of the length expression: the byte is
promoted to `int` with its sign, shifted in two's complement, and masked. -/
def shlAnd (b : Byte) (k mask : Nat) : Nat :=
  asUnsigned32 (wrap32 (jbyte b * 2 ^ k)) &&& mask

/-- The expression `(res[4] << 24) & 0xff000000 | (res[3] << 16) & 0x00ff0000 |
(res[2] << 8) & 0x0000ff00 | (res[1] << 0) & 0x000000ff`, stored in `int len`. -/
def readLen (r1 r2 r3 r4 : Byte) : Int :=
  wrap32 ((shlAnd r4 24 0xff000000 ||| shlAnd r3 16 0x00ff0000 |||
    shlAnd r2 8 0x0000ff00 ||| shlAnd r1 0 0x000000ff : Nat) : Int)

/-! ### JNI byte arrays -/

/-- The JNI function `NewByteArray(env, len)`: `len` zero bytes; a negative
length gives no array. -/
def NewByteArray (len : Int) : Option (List Byte) :=
  if 0 ≤ len then some (List.replicate len.toNat 0) else none

/-- The JNI function `SetByteArrayRegion(env, arr, start, len, buf)`: copies
`buf[0..len)` to `arr[start..start+len)`. A region outside the array, or
longer than the buffer it is read from, gives `none`. -/
def SetByteArrayRegion (arr : List Byte) (start len : Int) (buf : List Byte) :
    Option (List Byte) :=
  if 0 ≤ start ∧ 0 ≤ len ∧ start + len ≤ arr.length ∧ len ≤ buf.length then
    some (writeAt arr start.toNat (buf.take len.toNat))
  else none

/-! ### The string conversions -/

/-- The function `decode_to_utf8_string(env, string)`: a direct buffer over
`strlen(string)` bytes, decoded as UTF-8. -/
def decode_to_utf8_string (string : List Byte) : Option String :=
  (strlen string).map (fun n => charsetDecodeUTF8 (string.take n))

/-- The function `encode_to_utf8_chars(env, string)`: the bytes at the pointer
it returns. For a null string that is the literal `""`; otherwise a fresh
buffer with the UTF-8 bytes of the string and a NUL after them. -/
def encode_to_utf8_chars (string : Option String) : List Byte :=
  match string with
  | none => lit "" ++ [0]
  | some s =>
    let jbyte_array := getBytesUTF8 s.toList
    let length := jbyte_array.length
    writeAt (writeAt (List.replicate (length + 1) 0) 0 jbyte_array) length [0]

/-! ### The entry points -/

/-- The functions of the chat engine the bridge calls. A `const char *`
argument is given by the bytes at the pointer, a returned `char *` likewise;
a controller is an integer. -/
structure Foreign where
  chat_migrate_init : List Byte → List Byte → List Byte → List Byte × Int
  chat_send_cmd : Int → List Byte → List Byte
  chat_recv_msg : Int → List Byte
  chat_recv_msg_wait : Int → Int → List Byte
  chat_parse_markdown : List Byte → List Byte
  chat_parse_server : List Byte → List Byte
  chat_password_hash : List Byte → List Byte → List Byte
  chat_write_file : List Byte → List Byte → Int → List Byte
  chat_read_file : List Byte → List Byte → List Byte → List Byte
  chat_encrypt_file : List Byte → List Byte → List Byte
  chat_decrypt_file : List Byte → List Byte → List Byte → List Byte → List Byte

/-- The entry point `chatMigrateInit`: the decoded result and the controller. -/
def Java_chat_simplex_common_platform_CoreKt_chatMigrateInit (F : Foreign)
    (dbPath dbKey confirm : Option String) : Option String × Int :=
  let _dbPath := encode_to_utf8_chars dbPath
  let _dbKey := encode_to_utf8_chars dbKey
  let _confirm := encode_to_utf8_chars confirm
  let out := F.chat_migrate_init _dbPath _dbKey _confirm
  (decode_to_utf8_string out.1, out.2)

/-- The entry point `chatSendCmd`. -/
def Java_chat_simplex_common_platform_CoreKt_chatSendCmd (F : Foreign)
    (controller : Int) (msg : Option String) : Option String :=
  let _msg := encode_to_utf8_chars msg
  decode_to_utf8_string (F.chat_send_cmd controller _msg)

/-- The entry point `chatRecvMsg`. -/
def Java_chat_simplex_common_platform_CoreKt_chatRecvMsg (F : Foreign)
    (controller : Int) : Option String :=
  decode_to_utf8_string (F.chat_recv_msg controller)

/-- The entry point `chatRecvMsgWait`. -/
def Java_chat_simplex_common_platform_CoreKt_chatRecvMsgWait (F : Foreign)
    (controller wait : Int) : Option String :=
  decode_to_utf8_string (F.chat_recv_msg_wait controller wait)

/-- The entry point `chatParseMarkdown`. -/
def Java_chat_simplex_common_platform_CoreKt_chatParseMarkdown (F : Foreign)
    (str : Option String) : Option String :=
  let _str := encode_to_utf8_chars str
  decode_to_utf8_string (F.chat_parse_markdown _str)

/-- The entry point `chatParseServer`. -/
def Java_chat_simplex_common_platform_CoreKt_chatParseServer (F : Foreign)
    (str : Option String) : Option String :=
  let _str := encode_to_utf8_chars str
  decode_to_utf8_string (F.chat_parse_server _str)

/-- The entry point `chatPasswordHash`. -/
def Java_chat_simplex_common_platform_CoreKt_chatPasswordHash (F : Foreign)
    (pwd salt : Option String) : Option String :=
  let _pwd := encode_to_utf8_chars pwd
  let _salt := encode_to_utf8_chars salt
  decode_to_utf8_string (F.chat_password_hash _pwd _salt)

/-- The entry point `chatWriteFile`; `buffer` is the contents of the direct
buffer, its capacity is passed as the `int` length. -/
def Java_chat_simplex_common_platform_CoreKt_chatWriteFile (F : Foreign)
    (path : Option String) (buffer : List Byte) : Option String :=
  let _path := encode_to_utf8_chars path
  let capacity : Int := buffer.length
  decode_to_utf8_string (F.chat_write_file _path buffer (wrap32 capacity))

/-- The decoding `chatReadFile` does on the buffer `res` that `chat_read_file`
returned: lines 167 to 180 of the file. Reading `res` past its end is `none`,
and so is the signed overflow of `len + 10`. -/
def chatReadFile_decode (res : List Byte) : Option (List Byte) :=
  match res with
  | [] => none
  | r0 :: _ =>
    if r0 = 0 then
      match res with
      | _ :: r1 :: r2 :: r3 :: r4 :: _ =>
        let len := readLen r1 r2 r3 r4
        (NewByteArray len).bind (fun arr => SetByteArrayRegion arr 0 len (res.drop 5))
      | _ => none
    else
      (strlen res).bind (fun n =>
        let len := wrap32 (n : Int)
        if len + 10 < 2 ^ 31 then
          (NewByteArray (len + 10)).bind (fun arr => SetByteArrayRegion arr 10 len (res.drop 1))
        else none)

/-- The entry point `chatReadFile`. -/
def Java_chat_simplex_common_platform_CoreKt_chatReadFile (F : Foreign)
    (path key nonce : Option String) : Option (List Byte) :=
  let _path := encode_to_utf8_chars path
  let _key := encode_to_utf8_chars key
  let _nonce := encode_to_utf8_chars nonce
  let res := F.chat_read_file _path _key _nonce
  chatReadFile_decode res

/-- The entry point `chatEncryptFile`. -/
def Java_chat_simplex_common_platform_CoreKt_chatEncryptFile (F : Foreign)
    (from_path to_path : Option String) : Option String :=
  let _from_path := encode_to_utf8_chars from_path
  let _to_path := encode_to_utf8_chars to_path
  decode_to_utf8_string (F.chat_encrypt_file _from_path _to_path)

/-- The entry point `chatDecryptFile`. -/
def Java_chat_simplex_common_platform_CoreKt_chatDecryptFile (F : Foreign)
    (from_path key nonce to_path : Option String) : Option String :=
  let _from_path := encode_to_utf8_chars from_path
  let _key := encode_to_utf8_chars key
  let _nonce := encode_to_utf8_chars nonce
  let _to_path := encode_to_utf8_chars to_path
  decode_to_utf8_string (F.chat_decrypt_file _from_path _key _nonce _to_path)

/-! ### What a call computes -/

theorem haskell_init_body_eq (st : Statics) (nse : Bool)
    (eventlog heap_profile : Option (List Byte)) :
    haskell_init_body st nse eventlog heap_profile =
      some { argc := (expectedArgs nse eventlog heap_profile).length
             argv := expectedArgs nse eventlog heap_profile ++
               List.replicate (32 - (expectedArgs nse eventlog heap_profile).length) ArgPtr.null
             statics := expectedStatics st eventlog heap_profile } := by
  cases nse <;> cases eventlog <;> cases heap_profile <;> rfl

theorem expectedArgs_length_le (nse : Bool) (eventlog heap_profile : Option (List Byte)) :
    (expectedArgs nse eventlog heap_profile).length ≤ 13 := by
  cases nse <;> cases eventlog <;> cases heap_profile <;> simp [expectedArgs]

/-- Every call returns: all its stores are inside `argv`, the arguments are
`expectedArgs` and the static buffers `expectedStatics`. -/
theorem haskell_init_spec (st : Statics) (nse : Int)
    (eventlog heap_profile : Option (List Byte)) :
    ∃ r, haskell_init st nse eventlog heap_profile = some r ∧
      r.args = expectedArgs (decide (nse ≠ 0)) eventlog heap_profile ∧
      r.statics = expectedStatics st eventlog heap_profile ∧
      r.argc = (expectedArgs (decide (nse ≠ 0)) eventlog heap_profile).length ∧
      r.argv.length = 32 := by
  have hlen := expectedArgs_length_le (decide (nse ≠ 0)) eventlog heap_profile
  refine ⟨_, haskell_init_body_eq st _ eventlog heap_profile, ?_, rfl, rfl, ?_⟩
  · simp [RtsCall.args]
  · simp only [List.length_append, List.length_replicate]
    omega

/-! ### The static buffers -/

theorem strncpy_length (n : Nat) (src : List Byte) : (strncpy n src).length = n := by
  induction n generalizing src with
  | zero => simp [strncpy]
  | succ n ih =>
    cases src with
    | nil => simp [strncpy]
    | cons b src =>
      by_cases hb : b = 0
      · simp [strncpy, hb]
      · simp [strncpy, hb, ih]

/-- A string without NUL that leaves room for its terminator is copied whole
and padded with NULs. -/
theorem strncpy_of_short (n : Nat) (p : List Byte) (h0 : ∀ b ∈ p, b ≠ 0) (hn : p.length ≤ n) :
    strncpy n p = p ++ List.replicate (n - p.length) 0 := by
  induction n generalizing p with
  | zero =>
    cases p with
    | nil => simp [strncpy]
    | cons b p => simp at hn
  | succ n ih =>
    cases p with
    | nil => simp [strncpy]
    | cons b p =>
      have hb : b ≠ 0 := h0 b (by simp)
      have hp : ∀ c ∈ p, c ≠ 0 := fun c hc => h0 c (by simp [hc])
      have hl : p.length ≤ n := by simpa using hn
      simp [strncpy, hb, ih p hp hl]

/-- A string without NUL that is at least `n` bytes long fills all `n` bytes:
no NUL is written. -/
theorem strncpy_of_long (n : Nat) (p : List Byte) (h0 : ∀ b ∈ p, b ≠ 0) (hn : n ≤ p.length) :
    strncpy n p = p.take n := by
  induction n generalizing p with
  | zero => simp [strncpy]
  | succ n ih =>
    cases p with
    | nil => simp at hn
    | cons b p =>
      have hb : b ≠ 0 := h0 b (by simp)
      have hp : ∀ c ∈ p, c ≠ 0 := fun c hc => h0 c (by simp [hc])
      have hl : n ≤ p.length := by simpa using hn
      simp [strncpy, hb, ih p hp hl]

/-- In a 1024-byte buffer the 1021 bytes written at offset 3 replace
everything after the first three bytes. -/
theorem writeAt_three (buf data : List Byte) (hb : buf.length = 1024)
    (hd : data.length = 1021) : writeAt buf 3 data = buf.take 3 ++ data := by
  simp [writeAt, hd, hb]

theorem Statics.init_wf : Statics.init.WF := by
  refine ⟨?_, rfl, ?_, rfl⟩
  · show (lit "-ol" ++ List.replicate 1021 0).length = 1024
    rw [List.length_append, List.length_replicate]; rfl
  · show (lit "-po" ++ List.replicate 1021 0).length = 1024
    rw [List.length_append, List.length_replicate]; rfl

theorem expectedStatics_ol (st : Statics) (hst : st.WF) (p : List Byte)
    (heap_profile : Option (List Byte)) :
    (expectedStatics st (some p) heap_profile).ol = lit "-ol" ++ strncpy 1021 p := by
  obtain ⟨h1, h2, -, -⟩ := hst
  simp only [expectedStatics]
  rw [writeAt_three _ _ h1 (strncpy_length _ _), h2]

theorem expectedStatics_po (st : Statics) (hst : st.WF) (p : List Byte)
    (eventlog : Option (List Byte)) :
    (expectedStatics st eventlog (some p)).po = lit "-po" ++ strncpy 1021 p := by
  obtain ⟨-, -, h1, h2⟩ := hst
  simp only [expectedStatics]
  rw [writeAt_three _ _ h1 (strncpy_length _ _), h2]

/-- A call keeps the invariant of the static buffers. -/
theorem expectedStatics_wf (st : Statics) (hst : st.WF)
    (eventlog heap_profile : Option (List Byte)) :
    (expectedStatics st eventlog heap_profile).WF := by
  have hst' := hst
  obtain ⟨h1, h2, h3, h4⟩ := hst'
  cases eventlog <;> cases heap_profile
  · exact hst
  · refine ⟨h1, h2, ?_, ?_⟩
    · rw [expectedStatics_po st hst]; simp [strncpy_length, lit]
    · rw [expectedStatics_po st hst]; simp [lit]
  · refine ⟨?_, ?_, h3, h4⟩
    · rw [expectedStatics_ol st hst]; simp [strncpy_length, lit]
    · rw [expectedStatics_ol st hst]; simp [lit]
  · refine ⟨?_, ?_, ?_, ?_⟩
    · rw [expectedStatics_ol st hst]; simp [strncpy_length, lit]
    · rw [expectedStatics_ol st hst]; simp [lit]
    · rw [expectedStatics_po st hst]; simp [strncpy_length, lit]
    · rw [expectedStatics_po st hst]; simp [lit]

/-! ### Reading the arguments as C strings -/

theorem lit_ol_ne_zero : ∀ b ∈ lit "-ol", b ≠ 0 := by
  have h : lit "-ol" = [45, 111, 108] := rfl
  rw [h]; simp

theorem lit_po_ne_zero : ∀ b ∈ lit "-po", b ≠ 0 := by
  have h : lit "-po" = [45, 112, 111] := rfl
  rw [h]; simp

/-- The string read from a buffer starts with the NUL-free bytes the buffer
starts with. -/
theorem cstr_starts_with (buf pre s : List Byte) (hpre : ∀ b ∈ pre, b ≠ 0)
    (h : buf.take pre.length = pre) (hs : cstr buf = some s) : pre <+: s := by
  have hbuf : buf = pre ++ buf.drop pre.length := by
    conv_lhs => rw [← List.take_append_drop pre.length buf, h]
  unfold cstr at hs
  split at hs
  · simp only [Option.some.injEq] at hs
    rw [hbuf, List.takeWhile_append_of_pos (by simpa using hpre)] at hs
    exact ⟨_, hs⟩
  · simp at hs

/-- A padded copy of a NUL-free string reads back as that string. -/
theorem cstr_padded (pre p : List Byte) (k : Nat) (hpre : ∀ b ∈ pre, b ≠ 0)
    (hp : ∀ b ∈ p, b ≠ 0) :
    cstr (pre ++ (p ++ List.replicate (k + 1) 0)) = some (pre ++ p) := by
  have hmem : (0 : Byte) ∈ pre ++ (p ++ List.replicate (k + 1) 0) := by
    simp [List.replicate_succ]
  unfold cstr
  rw [if_pos hmem, List.takeWhile_append_of_pos (by simpa using hpre),
    List.takeWhile_append_of_pos (by simpa using hp)]
  simp [List.replicate_succ]

/-- A buffer without NUL holds no C string. -/
theorem cstr_of_no_nul (buf : List Byte) (h : ∀ b ∈ buf, b ≠ 0) : cstr buf = none := by
  unfold cstr
  rw [if_neg]
  intro hmem
  exact h 0 hmem rfl

/-- With well-formed static buffers, an argument reads as a string `s` that
starts with neither `-ol` nor `-po` only if it is the literal `s`. -/
theorem argString_eq_some_iff (r : RtsCall) (hwf : r.statics.WF) (s : List Byte)
    (hol : ¬ lit "-ol" <+: s) (hpo : ¬ lit "-po" <+: s) (x : ArgPtr) :
    r.argString x = some s ↔ x = ArgPtr.str s := by
  obtain ⟨-, h2, -, h4⟩ := hwf
  cases x with
  | null => simp [RtsCall.argString]
  | str t => simp [RtsCall.argString]
  | ol =>
    simp only [RtsCall.argString, reduceCtorEq, iff_false]
    exact fun h => hol (cstr_starts_with _ _ _ lit_ol_ne_zero h2 h)
  | po =>
    simp only [RtsCall.argString, reduceCtorEq, iff_false]
    exact fun h => hpo (cstr_starts_with _ _ _ lit_po_ne_zero h4 h)

theorem mem_argStrings_iff (r : RtsCall) (hwf : r.statics.WF) (s : List Byte)
    (hol : ¬ lit "-ol" <+: s) (hpo : ¬ lit "-po" <+: s) :
    some s ∈ r.argStrings ↔ ArgPtr.str s ∈ r.args := by
  simp only [RtsCall.argStrings, List.mem_map]
  constructor
  · rintro ⟨x, hx, hxs⟩
    rw [argString_eq_some_iff r hwf s hol hpo] at hxs
    exact hxs ▸ hx
  · intro h
    exact ⟨_, h, rfl⟩

/-- The string of any argument that a static buffer holds starts with the
buffer's three fixed characters. -/
theorem argStrings_cases (r : RtsCall) (hwf : r.statics.WF) (s : List Byte)
    (hs : some s ∈ r.argStrings) :
    ArgPtr.str s ∈ r.args ∨ (ArgPtr.ol ∈ r.args ∧ lit "-ol" <+: s) ∨
      (ArgPtr.po ∈ r.args ∧ lit "-po" <+: s) := by
  obtain ⟨-, h2, -, h4⟩ := hwf
  simp only [RtsCall.argStrings, List.mem_map] at hs
  obtain ⟨x, hx, hxs⟩ := hs
  cases x with
  | null => simp [RtsCall.argString] at hxs
  | str t =>
    simp only [RtsCall.argString, Option.some.injEq] at hxs
    exact Or.inl (hxs ▸ hx)
  | ol => exact Or.inr (Or.inl ⟨hx, cstr_starts_with _ _ _ lit_ol_ne_zero h2 hxs⟩)
  | po => exact Or.inr (Or.inr ⟨hx, cstr_starts_with _ _ _ lit_po_ne_zero h4 hxs⟩)

/-- Every call returns, and with well-formed static buffers on entry they
are well-formed at the call of the runtime. -/
theorem haskell_init_spec_wf (st : Statics) (hst : st.WF) (nse : Int)
    (eventlog heap_profile : Option (List Byte)) :
    ∃ r, haskell_init st nse eventlog heap_profile = some r ∧
      r.args = expectedArgs (decide (nse ≠ 0)) eventlog heap_profile ∧
      r.statics = expectedStatics st eventlog heap_profile ∧ r.statics.WF ∧
      r.argc = (expectedArgs (decide (nse ≠ 0)) eventlog heap_profile).length := by
  obtain ⟨r, hr, ha, hs, hc, -⟩ := haskell_init_spec st nse eventlog heap_profile
  exact ⟨r, hr, ha, hs, hs ▸ expectedStatics_wf st hst eventlog heap_profile, hc⟩

/-! ### The literals among the arguments -/

theorem expectedArgs_all_plain (nse : Bool) (eventlog heap_profile : Option (List Byte)) :
    (expectedArgs nse eventlog heap_profile).all (ArgPtr.strSatisfies plainFlag) = true := by
  cases nse <;> cases eventlog <;> cases heap_profile <;> rfl

theorem expectedArgs_str (nse : Bool) (eventlog heap_profile : Option (List Byte))
    (s : List Byte) (h : ArgPtr.str s ∈ expectedArgs nse eventlog heap_profile) :
    ¬ lit "-ol" <+: s ∧ ¬ lit "-po" <+: s ∧ s.length ≤ 11 := by
  have hall := expectedArgs_all_plain nse eventlog heap_profile
  rw [List.all_eq_true] at hall
  have hs := hall _ h
  simp only [ArgPtr.strSatisfies, plainFlag, Bool.and_eq_true, Bool.not_eq_true',
    decide_eq_true_eq] at hs
  obtain ⟨⟨h1, h2⟩, h3⟩ := hs
  refine ⟨?_, ?_, h3⟩
  · intro hp
    rw [← List.isPrefixOf_iff_prefix] at hp
    simp [hp] at h1
  · intro hp
    rw [← List.isPrefixOf_iff_prefix] at hp
    simp [hp] at h2

/-- The stored pointers depend on the two paths only through their being null
or not. -/
theorem expectedArgs_congr (nse : Bool) (eventlog heap_profile : Option (List Byte)) :
    expectedArgs nse eventlog heap_profile =
      expectedArgs nse (if eventlog.isSome then some [] else none)
        (if heap_profile.isSome then some [] else none) := by
  cases eventlog <;> cases heap_profile <;> rfl

theorem xn_mem_expectedArgs (nse : Bool) (eventlog heap_profile : Option (List Byte)) :
    ArgPtr.str (lit "-xn") ∈ expectedArgs nse eventlog heap_profile ↔
      nse = false ∧ heap_profile = none := by
  cases nse <;> cases eventlog <;> cases heap_profile <;> simp [expectedArgs] <;> decide

theorem po_mem_expectedArgs (nse : Bool) (eventlog heap_profile : Option (List Byte)) :
    ArgPtr.po ∈ expectedArgs nse eventlog heap_profile ↔ heap_profile.isSome = true := by
  cases nse <;> cases eventlog <;> cases heap_profile <;> simp [expectedArgs]

theorem ol_mem_expectedArgs (nse : Bool) (eventlog heap_profile : Option (List Byte)) :
    ArgPtr.ol ∈ expectedArgs nse eventlog heap_profile ↔ eventlog.isSome = true := by
  cases nse <;> cases eventlog <;> cases heap_profile <;> simp [expectedArgs]

theorem hT_mem_expectedArgs (nse : Bool) (eventlog heap_profile : Option (List Byte)) :
    ArgPtr.str (lit "-hT") ∈ expectedArgs nse eventlog heap_profile ↔
      heap_profile.isSome = true := by
  cases nse <;> cases eventlog <;> cases heap_profile <;> simp [expectedArgs] <;> decide

theorem ol_po_disjoint (s : List Byte) (h1 : lit "-ol" <+: s) (h2 : lit "-po" <+: s) :
    False := by
  have h := List.prefix_of_prefix_length_le h1 h2 (by decide)
  revert h
  decide

/-! ### Claims about `haskell_init` -/

/-- C4: for every mode, event-log path and heap-profile path (each absent or
present), `haskell_init` reaches the call of `hs_init_with_rtsopts` with every
store inside `argv`, and the `argc` it has written does not exceed the 32
slots of `argv`. -/
theorem haskell_init_argc_le_capacity (st : Statics) (nse : Int)
    (eventlog heap_profile : Option (List Byte)) :
    ∃ r, haskell_init st nse eventlog heap_profile = some r ∧
      r.argv.length = 32 ∧ r.argc ≤ r.argv.length := by
  obtain ⟨r, hr, -, -, hc, hl⟩ := haskell_init_spec st nse eventlog heap_profile
  have hle := expectedArgs_length_le (decide (nse ≠ 0)) eventlog heap_profile
  exact ⟨r, hr, hl, by omega⟩

/-- C5: for every mode, event-log path and heap-profile path, the argument
list of `haskell_init` does not hold the non-moving-collector flag `-xn`
together with a heap-profiling flag: the `po` buffer, an argument that reads
`-po...`, or `-hT`. -/
theorem haskell_init_xn_excludes_heap_profile (st : Statics) (hst : st.WF) (nse : Int)
    (eventlog heap_profile : Option (List Byte)) :
    ∃ r, haskell_init st nse eventlog heap_profile = some r ∧
      ¬ (some (lit "-xn") ∈ r.argStrings ∧
          (ArgPtr.po ∈ r.args ∨ some (lit "-hT") ∈ r.argStrings ∨
            ∃ s, some s ∈ r.argStrings ∧ lit "-po" <+: s)) := by
  obtain ⟨r, hr, ha, -, hwf, -⟩ := haskell_init_spec_wf st hst nse eventlog heap_profile
  refine ⟨r, hr, ?_⟩
  rintro ⟨hxn, hprof⟩
  rw [mem_argStrings_iff r hwf _ (by decide) (by decide), ha, xn_mem_expectedArgs] at hxn
  obtain ⟨-, hnone⟩ := hxn
  subst hnone
  rcases hprof with hpo | hhT | ⟨s, hs, hpre⟩
  · rw [ha, po_mem_expectedArgs] at hpo
    simp at hpo
  · rw [mem_argStrings_iff r hwf _ (by decide) (by decide), ha, hT_mem_expectedArgs] at hhT
    simp at hhT
  · rcases argStrings_cases r hwf s hs with hstr | ⟨-, hol⟩ | ⟨hpo, -⟩
    · rw [ha] at hstr
      exact (expectedArgs_str _ _ _ s hstr).2.1 hpre
    · exact ol_po_disjoint s hol hpre
    · rw [ha, po_mem_expectedArgs] at hpo
      simp at hpo

theorem haskell_init_xn_excludes_heap_profile_witness :
    Statics.init.WF ∧
    ∃ r, haskell_init Statics.init 0 (some (lit "/tmp/ev")) (some (lit "/tmp/hp")) = some r ∧
      ¬ (some (lit "-xn") ∈ r.argStrings ∧
          (ArgPtr.po ∈ r.args ∨ some (lit "-hT") ∈ r.argStrings ∨
            ∃ s, some s ∈ r.argStrings ∧ lit "-po" <+: s)) :=
  ⟨Statics.init_wf,
    haskell_init_xn_excludes_heap_profile Statics.init Statics.init_wf 0
      (some (lit "/tmp/ev")) (some (lit "/tmp/hp"))⟩

/-- C6: for every call with `nse` nonzero the arguments are `simplex-nse`,
`+RTS`, `-S`, `-A1m`, `-H2m`, `-M12m`, `-F0.5`, `-Fd1`, then the event-log
pair and the heap-profile pair when their path is given, then `-c`; no
argument reads `-T`, `-A64m`, `-H64m` or `-xn`; with neither path the list is
exactly the nine arguments. -/
theorem haskell_init_nse_args (st : Statics) (hst : st.WF) (nse : Int) (hnse : nse ≠ 0)
    (eventlog heap_profile : Option (List Byte)) :
    ∃ r, haskell_init st nse eventlog heap_profile = some r ∧
      r.args =
        [.str (lit "simplex-nse"), .str (lit "+RTS"), .str (lit "-S"), .str (lit "-A1m"),
          .str (lit "-H2m"), .str (lit "-M12m"), .str (lit "-F0.5"), .str (lit "-Fd1")]
        ++ (if eventlog.isSome then [.ol, .str (lit "-l-agu")] else [])
        ++ (if heap_profile.isSome then [.po, .str (lit "-hT")] else [])
        ++ [.str (lit "-c")] ∧
      some (lit "-T") ∉ r.argStrings ∧ some (lit "-A64m") ∉ r.argStrings ∧
      some (lit "-H64m") ∉ r.argStrings ∧ some (lit "-xn") ∉ r.argStrings ∧
      (eventlog = none → heap_profile = none → r.argc = 9 ∧
        r.argStrings =
          [some (lit "simplex-nse"), some (lit "+RTS"), some (lit "-S"), some (lit "-A1m"),
            some (lit "-H2m"), some (lit "-M12m"), some (lit "-F0.5"), some (lit "-Fd1"),
            some (lit "-c")]) := by
  obtain ⟨r, hr, ha, -, hwf, hc⟩ := haskell_init_spec_wf st hst nse eventlog heap_profile
  have hb : decide (nse ≠ 0) = true := by simpa using hnse
  rw [hb] at ha hc
  refine ⟨r, hr, ?_, ?_, ?_, ?_, ?_, ?_⟩
  · rw [ha]; simp [expectedArgs]
  · rw [mem_argStrings_iff r hwf _ (by decide) (by decide), ha, expectedArgs_congr]
    generalize eventlog.isSome = e
    generalize heap_profile.isSome = h
    cases e <;> cases h <;> decide
  · rw [mem_argStrings_iff r hwf _ (by decide) (by decide), ha, expectedArgs_congr]
    generalize eventlog.isSome = e
    generalize heap_profile.isSome = h
    cases e <;> cases h <;> decide
  · rw [mem_argStrings_iff r hwf _ (by decide) (by decide), ha, expectedArgs_congr]
    generalize eventlog.isSome = e
    generalize heap_profile.isSome = h
    cases e <;> cases h <;> decide
  · rw [mem_argStrings_iff r hwf _ (by decide) (by decide), ha, expectedArgs_congr]
    generalize eventlog.isSome = e
    generalize heap_profile.isSome = h
    cases e <;> cases h <;> decide
  · rintro rfl rfl
    refine ⟨hc, ?_⟩
    rw [RtsCall.argStrings, ha]
    rfl

theorem haskell_init_nse_args_witness :
    Statics.init.WF ∧ (1 : Int) ≠ 0 ∧
    ∃ r, haskell_init Statics.init 1 none none = some r ∧
      r.args =
        [.str (lit "simplex-nse"), .str (lit "+RTS"), .str (lit "-S"), .str (lit "-A1m"),
          .str (lit "-H2m"), .str (lit "-M12m"), .str (lit "-F0.5"), .str (lit "-Fd1")]
        ++ (if (none : Option (List Byte)).isSome then [.ol, .str (lit "-l-agu")] else [])
        ++ (if (none : Option (List Byte)).isSome then [.po, .str (lit "-hT")] else [])
        ++ [.str (lit "-c")] ∧
      some (lit "-T") ∉ r.argStrings ∧ some (lit "-A64m") ∉ r.argStrings ∧
      some (lit "-H64m") ∉ r.argStrings ∧ some (lit "-xn") ∉ r.argStrings ∧
      ((none : Option (List Byte)) = none → (none : Option (List Byte)) = none →
        r.argc = 9 ∧
        r.argStrings =
          [some (lit "simplex-nse"), some (lit "+RTS"), some (lit "-S"), some (lit "-A1m"),
            some (lit "-H2m"), some (lit "-M12m"), some (lit "-F0.5"), some (lit "-Fd1"),
            some (lit "-c")]) :=
  ⟨Statics.init_wf, by decide,
    haskell_init_nse_args Statics.init Statics.init_wf 1 (by decide) none none⟩

/-- C7: for every call with `nse` equal to 0 the arguments are `simplex`,
`+RTS`, `-T`, `-A64m`, `-H64m`, then the event-log pair and the heap-profile
pair when their path is given, then `-xn` when `heap_profile` is null; an
argument reads `-xn` if and only if `heap_profile` is null; no argument reads
`-S`, `-M12m` or `-c`. -/
theorem haskell_init_normal_args (st : Statics) (hst : st.WF)
    (eventlog heap_profile : Option (List Byte)) :
    ∃ r, haskell_init st 0 eventlog heap_profile = some r ∧
      r.args =
        [.str (lit "simplex"), .str (lit "+RTS"), .str (lit "-T"), .str (lit "-A64m"),
          .str (lit "-H64m")]
        ++ (if eventlog.isSome then [.ol, .str (lit "-l-agu")] else [])
        ++ (if heap_profile.isSome then [.po, .str (lit "-hT")] else [])
        ++ (if heap_profile.isNone then [.str (lit "-xn")] else []) ∧
      (some (lit "-xn") ∈ r.argStrings ↔ heap_profile = none) ∧
      some (lit "-S") ∉ r.argStrings ∧ some (lit "-M12m") ∉ r.argStrings ∧
      some (lit "-c") ∉ r.argStrings := by
  obtain ⟨r, hr, ha, -, hwf, -⟩ := haskell_init_spec_wf st hst 0 eventlog heap_profile
  have hb : decide ((0 : Int) ≠ 0) = false := by decide
  rw [hb] at ha
  refine ⟨r, hr, ?_, ?_, ?_, ?_, ?_⟩
  · rw [ha]; simp [expectedArgs]
  · rw [mem_argStrings_iff r hwf _ (by decide) (by decide), ha, xn_mem_expectedArgs]
    simp
  · rw [mem_argStrings_iff r hwf _ (by decide) (by decide), ha, expectedArgs_congr]
    generalize eventlog.isSome = e
    generalize heap_profile.isSome = h
    cases e <;> cases h <;> decide
  · rw [mem_argStrings_iff r hwf _ (by decide) (by decide), ha, expectedArgs_congr]
    generalize eventlog.isSome = e
    generalize heap_profile.isSome = h
    cases e <;> cases h <;> decide
  · rw [mem_argStrings_iff r hwf _ (by decide) (by decide), ha, expectedArgs_congr]
    generalize eventlog.isSome = e
    generalize heap_profile.isSome = h
    cases e <;> cases h <;> decide

theorem haskell_init_normal_args_witness :
    Statics.init.WF ∧
    ∃ r, haskell_init Statics.init 0 (some (lit "/tmp/ev")) none = some r ∧
      r.args =
        [.str (lit "simplex"), .str (lit "+RTS"), .str (lit "-T"), .str (lit "-A64m"),
          .str (lit "-H64m")]
        ++ (if (some (lit "/tmp/ev")).isSome then [.ol, .str (lit "-l-agu")] else [])
        ++ (if (none : Option (List Byte)).isSome then [.po, .str (lit "-hT")] else [])
        ++ (if (none : Option (List Byte)).isNone then [.str (lit "-xn")] else []) ∧
      (some (lit "-xn") ∈ r.argStrings ↔ (none : Option (List Byte)) = none) ∧
      some (lit "-S") ∉ r.argStrings ∧ some (lit "-M12m") ∉ r.argStrings ∧
      some (lit "-c") ∉ r.argStrings :=
  ⟨Statics.init_wf,
    haskell_init_normal_args Statics.init Statics.init_wf (some (lit "/tmp/ev")) none⟩

theorem lagu_not_mem_expectedArgs (nse : Bool) (heap_profile : Option (List Byte)) :
    ArgPtr.str (lit "-l-agu") ∉ expectedArgs nse none heap_profile := by
  rw [expectedArgs_congr]
  generalize heap_profile.isSome = h
  cases nse <;> cases h <;> decide

/-- With an event-log path the stored pointers are some pointers, then the
`ol` buffer and `-l-agu`, then some pointers. -/
theorem expectedArgs_eventlog (nse : Bool) (p : List Byte) (heap_profile : Option (List Byte)) :
    ∃ pre post, expectedArgs nse (some p) heap_profile =
      pre ++ [ArgPtr.ol, ArgPtr.str (lit "-l-agu")] ++ post := by
  refine ⟨if nse then
      [.str (lit "simplex-nse"), .str (lit "+RTS"), .str (lit "-S"), .str (lit "-A1m"),
        .str (lit "-H2m"), .str (lit "-M12m"), .str (lit "-F0.5"), .str (lit "-Fd1")]
    else
      [.str (lit "simplex"), .str (lit "+RTS"), .str (lit "-T"), .str (lit "-A64m"),
        .str (lit "-H64m")],
    (if heap_profile.isSome then [.po, .str (lit "-hT")] else []) ++
    (if nse then [.str (lit "-c")] else
      if heap_profile.isNone then [.str (lit "-xn")] else []), ?_⟩
  simp only [expectedArgs, Option.isSome_some, if_true, List.append_assoc]

/-- C8, amended: in either mode and for every event-log path `p` of at most
1020 bytes (so that `strncpy` leaves room for a NUL in the 1024-byte buffer),
the arguments hold the string `-ol` followed by the whole of `p`, immediately
followed by `-l-agu`; with no event-log path, no argument points to the `ol`
buffer, reads `-l-agu` or starts with `-ol`. -/
theorem haskell_init_eventlog_flag (st : Statics) (hst : st.WF) (nse : Int)
    (heap_profile : Option (List Byte)) (p : List Byte) (hp0 : ∀ b ∈ p, b ≠ 0)
    (hlen : p.length ≤ 1020) :
    (∃ r, haskell_init st nse (some p) heap_profile = some r ∧
      ∃ pre post, r.argStrings =
        pre ++ [some (lit "-ol" ++ p), some (lit "-l-agu")] ++ post) ∧
    (∃ r, haskell_init st nse none heap_profile = some r ∧
      ArgPtr.ol ∉ r.args ∧ some (lit "-l-agu") ∉ r.argStrings ∧
      ∀ s, some s ∈ r.argStrings → ¬ lit "-ol" <+: s) := by
  constructor
  · obtain ⟨r, hr, ha, hs, -, -⟩ := haskell_init_spec_wf st hst nse (some p) heap_profile
    obtain ⟨pre, post, hargs⟩ := expectedArgs_eventlog (decide (nse ≠ 0)) p heap_profile
    have hol : cstr r.statics.ol = some (lit "-ol" ++ p) := by
      have hk : 1021 - p.length = (1020 - p.length) + 1 := by omega
      rw [hs, expectedStatics_ol st hst, strncpy_of_short 1021 p hp0 (by omega), hk]
      exact cstr_padded _ _ _ lit_ol_ne_zero hp0
    refine ⟨r, hr, pre.map r.argString, post.map r.argString, ?_⟩
    rw [RtsCall.argStrings, ha, hargs, List.map_append, List.map_append]
    simp only [List.map_cons, List.map_nil, hol, RtsCall.argString]
  · obtain ⟨r, hr, ha, -, hwf, -⟩ := haskell_init_spec_wf st hst nse none heap_profile
    have hno : ArgPtr.ol ∉ r.args := by
      rw [ha, ol_mem_expectedArgs]; simp
    refine ⟨r, hr, hno, ?_, ?_⟩
    · rw [mem_argStrings_iff r hwf _ (by decide) (by decide), ha]
      exact lagu_not_mem_expectedArgs _ _
    · intro s hs hpre
      rcases argStrings_cases r hwf s hs with hstr | ⟨hol, -⟩ | ⟨-, hpo⟩
      · rw [ha] at hstr
        exact (expectedArgs_str _ _ _ s hstr).1 hpre
      · exact hno hol
      · exact ol_po_disjoint s hpre hpo

theorem haskell_init_eventlog_flag_witness :
    Statics.init.WF ∧ (∀ b ∈ lit "/tmp/ev", b ≠ 0) ∧ (lit "/tmp/ev").length ≤ 1020 ∧
    (∃ r, haskell_init Statics.init 1 (some (lit "/tmp/ev")) none = some r ∧
      ∃ pre post, r.argStrings =
        pre ++ [some (lit "-ol" ++ lit "/tmp/ev"), some (lit "-l-agu")] ++ post) ∧
    (∃ r, haskell_init Statics.init 1 none none = some r ∧
      ArgPtr.ol ∉ r.args ∧ some (lit "-l-agu") ∉ r.argStrings ∧
      ∀ s, some s ∈ r.argStrings → ¬ lit "-ol" <+: s) :=
  have h0 : ∀ b ∈ lit "/tmp/ev", b ≠ 0 := by
    have h : lit "/tmp/ev" = [47, 116, 109, 112, 47, 101, 118] := rfl
    rw [h]; simp
  have hl : (lit "/tmp/ev").length ≤ 1020 := by decide
  ⟨Statics.init_wf, h0, hl,
    haskell_init_eventlog_flag Statics.init Statics.init_wf 1 none (lit "/tmp/ev") h0 hl⟩

/-- An event-log path of 1021 bytes or more fills the `ol` buffer to its
end: the `ol` argument is no NUL-terminated string, and no argument reads
`-ol` followed by the path. -/
theorem haskell_init_eventlog_long (st : Statics) (hst : st.WF) (nse : Int)
    (p : List Byte) (hp0 : ∀ b ∈ p, b ≠ 0) (hlen : 1021 ≤ p.length) :
    ∃ r, haskell_init st nse (some p) none = some r ∧
      ArgPtr.ol ∈ r.args ∧ r.argString ArgPtr.ol = none ∧
      some (lit "-ol" ++ p) ∉ r.argStrings := by
  obtain ⟨r, hr, ha, hs, -, -⟩ := haskell_init_spec_wf st hst nse (some p) none
  have hmem : ArgPtr.ol ∈ r.args := by
    rw [ha, ol_mem_expectedArgs]; rfl
  have hol : r.argString ArgPtr.ol = none := by
    show cstr r.statics.ol = none
    rw [hs, expectedStatics_ol _ hst, strncpy_of_long 1021 _ hp0 hlen]
    apply cstr_of_no_nul
    intro b hb
    rcases List.mem_append.1 hb with h | h
    · exact lit_ol_ne_zero b h
    · exact hp0 b (List.mem_of_mem_take h)
  refine ⟨r, hr, hmem, hol, ?_⟩
  intro hin
  simp only [RtsCall.argStrings, List.mem_map] at hin
  obtain ⟨x, hx, hxs⟩ := hin
  cases x with
  | null => cases hxs
  | str t =>
    simp only [RtsCall.argString, Option.some.injEq] at hxs
    rw [ha, hxs] at hx
    have h11 := (expectedArgs_str _ _ _ _ hx).2.2
    rw [List.length_append] at h11
    omega
  | ol => rw [hol] at hxs; cases hxs
  | po =>
    rw [ha, po_mem_expectedArgs] at hx
    simp at hx

/-- C8 fails as stated: with an event-log path of 1021 bytes `strncpy` fills
the `ol` buffer to its end and writes no NUL, so the `ol` argument is not a
NUL-terminated string, and no argument reads `-ol` followed by the path. -/
theorem haskell_init_eventlog_flag_counterexample :
    ∃ r, haskell_init Statics.init 0 (some (List.replicate 1021 97)) none = some r ∧
      ArgPtr.ol ∈ r.args ∧ r.argString ArgPtr.ol = none ∧
      some (lit "-ol" ++ List.replicate 1021 97) ∉ r.argStrings :=
  haskell_init_eventlog_long Statics.init Statics.init_wf 0 (List.replicate 1021 97)
    (fun b hb => by rw [List.eq_of_mem_replicate hb]; decide)
    (le_of_eq (List.length_replicate _ _).symm)

/-! ### Two successive calls -/

/-- Two successive calls both return; the second one starts from the static
buffers the first one left. -/
theorem haskell_init_twice_spec (st : Statics) (hst : st.WF)
    (nse1 : Int) (eventlog1 heap_profile1 : Option (List Byte))
    (nse2 : Int) (eventlog2 heap_profile2 : Option (List Byte)) :
    ∃ r1 r, haskell_init st nse1 eventlog1 heap_profile1 = some r1 ∧
      haskell_init_twice st nse1 eventlog1 heap_profile1 nse2 eventlog2 heap_profile2 = some r ∧
      r1.statics.WF ∧
      r.args = expectedArgs (decide (nse2 ≠ 0)) eventlog2 heap_profile2 ∧
      r.statics = expectedStatics r1.statics eventlog2 heap_profile2 := by
  obtain ⟨r1, hr1, -, -, hwf1, -⟩ := haskell_init_spec_wf st hst nse1 eventlog1 heap_profile1
  obtain ⟨r, hr, ha, hs, -, -⟩ :=
    haskell_init_spec_wf r1.statics hwf1 nse2 eventlog2 heap_profile2
  refine ⟨r1, r, hr1, ?_, hwf1, ha, hs⟩
  rw [haskell_init_twice, hr1]
  exact hr

theorem null_not_mem_expectedArgs (nse : Bool) (eventlog heap_profile : Option (List Byte)) :
    ArgPtr.null ∉ expectedArgs nse eventlog heap_profile := by
  rw [expectedArgs_congr]
  generalize eventlog.isSome = e
  generalize heap_profile.isSome = h
  cases nse <;> cases e <;> cases h <;> decide

/-- A static buffer that received a path which fits with its terminator reads
as its fixed characters followed by the path. -/
theorem cstr_after_strncpy (pre p : List Byte) (hpre : ∀ b ∈ pre, b ≠ 0)
    (hfit : fitsWithNul p) : cstr (pre ++ strncpy 1021 p) = some (pre ++ p) := by
  obtain ⟨h0, hlen⟩ := hfit
  have hk : 1021 - p.length = (1020 - p.length) + 1 := by omega
  rw [strncpy_of_short 1021 p h0 (by omega), hk]
  exact cstr_padded _ _ _ hpre h0

/-- C10, amended: for every two successive calls, a static buffer whose path
the second call is given (`ol` for `eventlog`, `po` for `heap_profile`) holds,
after the second call, its three fixed characters followed by the 1021 bytes
`strncpy` writes from that path, whatever the first call was; hence, for a
path of at most 1020 bytes, the argument read from that buffer is `-ol` (or
`-po`) followed by the second call's path, whatever the first call was. A
buffer whose path is null in the second call is left as the first call wrote
it, and no argument of the second call points to it. The pointers the second
call passes do not depend on the first call, and when each path it is given
has at most 1020 bytes, every argument is a NUL-terminated string and the
list of these strings does not depend on the first call. -/
theorem haskell_init_twice_statics (st : Statics) (hst : st.WF)
    (nse1 : Int) (eventlog1 heap_profile1 : Option (List Byte))
    (nse1' : Int) (eventlog1' heap_profile1' : Option (List Byte))
    (nse2 : Int) (eventlog2 heap_profile2 : Option (List Byte)) :
    ∃ r1 r r', haskell_init st nse1 eventlog1 heap_profile1 = some r1 ∧
      haskell_init_twice st nse1 eventlog1 heap_profile1 nse2 eventlog2 heap_profile2 = some r ∧
      haskell_init_twice st nse1' eventlog1' heap_profile1' nse2 eventlog2 heap_profile2
        = some r' ∧
      (∀ p, eventlog2 = some p →
        r.statics.ol = lit "-ol" ++ strncpy 1021 p ∧ r'.statics.ol = r.statics.ol ∧
        (fitsWithNul p →
          r.argString ArgPtr.ol = some (lit "-ol" ++ p) ∧
          r'.argString ArgPtr.ol = some (lit "-ol" ++ p))) ∧
      (∀ p, heap_profile2 = some p →
        r.statics.po = lit "-po" ++ strncpy 1021 p ∧ r'.statics.po = r.statics.po ∧
        (fitsWithNul p →
          r.argString ArgPtr.po = some (lit "-po" ++ p) ∧
          r'.argString ArgPtr.po = some (lit "-po" ++ p))) ∧
      (eventlog2 = none → r.statics.ol = r1.statics.ol ∧ ArgPtr.ol ∉ r.args) ∧
      (heap_profile2 = none → r.statics.po = r1.statics.po ∧ ArgPtr.po ∉ r.args) ∧
      r'.args = r.args ∧
      ((∀ p, eventlog2 = some p → fitsWithNul p) →
        (∀ p, heap_profile2 = some p → fitsWithNul p) →
        (∀ a ∈ r.argStrings, a ≠ none) ∧ r'.argStrings = r.argStrings) := by
  obtain ⟨r1, r, hr1, hr, hwf1, ha, hs⟩ :=
    haskell_init_twice_spec st hst nse1 eventlog1 heap_profile1 nse2 eventlog2 heap_profile2
  obtain ⟨r1', r', -, hr', hwf1', ha', hs'⟩ :=
    haskell_init_twice_spec st hst nse1' eventlog1' heap_profile1' nse2 eventlog2 heap_profile2
  have hol : ∀ p, eventlog2 = some p →
      r.statics.ol = lit "-ol" ++ strncpy 1021 p ∧ r'.statics.ol = r.statics.ol ∧
      (fitsWithNul p →
        r.argString ArgPtr.ol = some (lit "-ol" ++ p) ∧
        r'.argString ArgPtr.ol = some (lit "-ol" ++ p)) := by
    rintro p rfl
    have e : r.statics.ol = lit "-ol" ++ strncpy 1021 p := by
      rw [hs, expectedStatics_ol _ hwf1]
    have e' : r'.statics.ol = lit "-ol" ++ strncpy 1021 p := by
      rw [hs', expectedStatics_ol _ hwf1']
    refine ⟨e, e'.trans e.symm, fun hfit => ⟨?_, ?_⟩⟩
    · show cstr r.statics.ol = _
      rw [e]
      exact cstr_after_strncpy _ _ lit_ol_ne_zero hfit
    · show cstr r'.statics.ol = _
      rw [e']
      exact cstr_after_strncpy _ _ lit_ol_ne_zero hfit
  have hpo : ∀ p, heap_profile2 = some p →
      r.statics.po = lit "-po" ++ strncpy 1021 p ∧ r'.statics.po = r.statics.po ∧
      (fitsWithNul p →
        r.argString ArgPtr.po = some (lit "-po" ++ p) ∧
        r'.argString ArgPtr.po = some (lit "-po" ++ p)) := by
    rintro p rfl
    have e : r.statics.po = lit "-po" ++ strncpy 1021 p := by
      rw [hs, expectedStatics_po _ hwf1]
    have e' : r'.statics.po = lit "-po" ++ strncpy 1021 p := by
      rw [hs', expectedStatics_po _ hwf1']
    refine ⟨e, e'.trans e.symm, fun hfit => ⟨?_, ?_⟩⟩
    · show cstr r.statics.po = _
      rw [e]
      exact cstr_after_strncpy _ _ lit_po_ne_zero hfit
    · show cstr r'.statics.po = _
      rw [e']
      exact cstr_after_strncpy _ _ lit_po_ne_zero hfit
  refine ⟨r1, r, r', hr1, hr, hr', hol, hpo, ?_, ?_, ha'.trans ha.symm, ?_⟩
  · rintro rfl
    refine ⟨by rw [hs]; rfl, ?_⟩
    rw [ha, ol_mem_expectedArgs]; simp
  · rintro rfl
    refine ⟨by rw [hs]; cases eventlog2 <;> rfl, ?_⟩
    rw [ha, po_mem_expectedArgs]; simp
  · intro hev hhp
    have hpt : ∀ x ∈ r.args, r.argString x ≠ none ∧ r'.argString x = r.argString x := by
      intro x hx
      cases x with
      | null =>
        rw [ha] at hx
        exact absurd hx (null_not_mem_expectedArgs _ _ _)
      | str s => exact ⟨Option.some_ne_none s, rfl⟩
      | ol =>
        rw [ha, ol_mem_expectedArgs, Option.isSome_iff_exists] at hx
        obtain ⟨p, hp⟩ := hx
        obtain ⟨h1, h2⟩ := (hol p hp).2.2 (hev p hp)
        exact ⟨(by rw [h1]; exact Option.some_ne_none _), h2.trans h1.symm⟩
      | po =>
        rw [ha, po_mem_expectedArgs, Option.isSome_iff_exists] at hx
        obtain ⟨p, hp⟩ := hx
        obtain ⟨h1, h2⟩ := (hpo p hp).2.2 (hhp p hp)
        exact ⟨(by rw [h1]; exact Option.some_ne_none _), h2.trans h1.symm⟩
    constructor
    · intro a hmem
      simp only [RtsCall.argStrings, List.mem_map] at hmem
      obtain ⟨x, hx, rfl⟩ := hmem
      exact (hpt x hx).1
    · rw [RtsCall.argStrings, RtsCall.argStrings, ha'.trans ha.symm]
      exact List.map_congr_left (fun x hx => (hpt x hx).2)

theorem haskell_init_twice_statics_witness :
    Statics.init.WF ∧ fitsWithNul (lit "c") ∧
    ∃ r1 r r', haskell_init Statics.init 0 (some (lit "a")) none = some r1 ∧
      haskell_init_twice Statics.init 0 (some (lit "a")) none 1 (some (lit "c")) none = some r ∧
      haskell_init_twice Statics.init 1 (some (lit "b")) (some (lit "d")) 1 (some (lit "c")) none
        = some r' ∧
      (∀ p, some (lit "c") = some p →
        r.statics.ol = lit "-ol" ++ strncpy 1021 p ∧ r'.statics.ol = r.statics.ol ∧
        (fitsWithNul p →
          r.argString ArgPtr.ol = some (lit "-ol" ++ p) ∧
          r'.argString ArgPtr.ol = some (lit "-ol" ++ p))) ∧
      (∀ p, (none : Option (List Byte)) = some p →
        r.statics.po = lit "-po" ++ strncpy 1021 p ∧ r'.statics.po = r.statics.po ∧
        (fitsWithNul p →
          r.argString ArgPtr.po = some (lit "-po" ++ p) ∧
          r'.argString ArgPtr.po = some (lit "-po" ++ p))) ∧
      (some (lit "c") = none → r.statics.ol = r1.statics.ol ∧ ArgPtr.ol ∉ r.args) ∧
      ((none : Option (List Byte)) = none →
        r.statics.po = r1.statics.po ∧ ArgPtr.po ∉ r.args) ∧
      r'.args = r.args ∧
      ((∀ p, some (lit "c") = some p → fitsWithNul p) →
        (∀ p, (none : Option (List Byte)) = some p → fitsWithNul p) →
        (∀ a ∈ r.argStrings, a ≠ none) ∧ r'.argStrings = r.argStrings) :=
  have hfit : fitsWithNul (lit "c") := by
    have h : lit "c" = [99] := rfl
    rw [h]
    exact ⟨by simp, by simp⟩
  ⟨Statics.init_wf, hfit,
    haskell_init_twice_statics Statics.init Statics.init_wf 0 (some (lit "a")) none
      1 (some (lit "b")) (some (lit "d")) 1 (some (lit "c")) none⟩

/-- C10 fails as stated: a second call with a null `eventlog` leaves the `ol`
buffer as the first call wrote it, so after the same second call the buffer
differs with the first call's path (`a` or `b`). Besides, after a second call
with an `eventlog` of 1021 bytes the `ol` buffer holds no NUL, so the buffer
alone does not give the string of the `-ol` argument. -/
theorem haskell_init_twice_statics_counterexample :
    (∃ r r', haskell_init_twice Statics.init 0 (some (lit "a")) none 0 none none = some r ∧
      haskell_init_twice Statics.init 0 (some (lit "b")) none 0 none none = some r' ∧
      r.statics.ol.take 5 = lit "-ola" ++ [0] ∧ r'.statics.ol.take 5 = lit "-olb" ++ [0] ∧
      r.statics.ol ≠ r'.statics.ol) ∧
    (∃ r, haskell_init_twice Statics.init 0 none (some (lit "X"))
        0 (some (List.replicate 1021 97)) none = some r ∧
      ArgPtr.ol ∈ r.args ∧ r.argString ArgPtr.ol = none) := by
  refine ⟨?_, ?_⟩
  case refine_2 =>
    obtain ⟨r1, hr1, -, -, hwf1, -⟩ :=
      haskell_init_spec_wf Statics.init Statics.init_wf 0 none (some (lit "X"))
    obtain ⟨r, hr, hmem, hol, -⟩ :=
      haskell_init_eventlog_long r1.statics hwf1 0 (List.replicate 1021 97)
        (fun b hb => by rw [List.eq_of_mem_replicate hb]; decide)
        (le_of_eq (List.length_replicate _ _).symm)
    refine ⟨r, ?_, hmem, hol⟩
    rw [haskell_init_twice, hr1]
    exact hr
  obtain ⟨r1, r, hr1, hr, -, -, hs⟩ :=
    haskell_init_twice_spec Statics.init Statics.init_wf 0 (some (lit "a")) none 0 none none
  obtain ⟨r1', r', hr1', hr', -, -, hs'⟩ :=
    haskell_init_twice_spec Statics.init Statics.init_wf 0 (some (lit "b")) none 0 none none
  obtain ⟨q, hq, -, hs1, -, -⟩ :=
    haskell_init_spec_wf Statics.init Statics.init_wf 0 (some (lit "a")) none
  obtain ⟨q', hq', -, hs1', -, -⟩ :=
    haskell_init_spec_wf Statics.init Statics.init_wf 0 (some (lit "b")) none
  obtain rfl : q = r1 := Option.some.inj (hq.symm.trans hr1)
  obtain rfl : q' = r1' := Option.some.inj (hq'.symm.trans hr1')
  have h : r.statics.ol.take 5 = lit "-ola" ++ [0] := by
    rw [hs, hs1]
    rfl
  have h' : r'.statics.ol.take 5 = lit "-olb" ++ [0] := by
    rw [hs', hs1']
    rfl
  refine ⟨r, r', hr, hr', h, h', ?_⟩
  intro he
  rw [he, h'] at h
  revert h
  decide

/-! ## simplex-api.c -/

/-! ### The length prefix -/

set_option maxRecDepth 100000 in
theorem shlAnd_24 : ∀ b : Byte, shlAnd b 24 0xff000000 = 2 ^ 24 * b.val := by decide

set_option maxRecDepth 100000 in
theorem shlAnd_16 : ∀ b : Byte, shlAnd b 16 0x00ff0000 = 2 ^ 16 * b.val := by decide

set_option maxRecDepth 100000 in
theorem shlAnd_8 : ∀ b : Byte, shlAnd b 8 0x0000ff00 = 2 ^ 8 * b.val := by decide

set_option maxRecDepth 100000 in
theorem shlAnd_0 : ∀ b : Byte, shlAnd b 0 0x000000ff = b.val := by decide

/-- The length expression computes the little-endian value of the four bytes,
whatever their signs as `jbyte`, converted to `int`. -/
theorem readLen_eq (r1 r2 r3 r4 : Byte) :
    readLen r1 r2 r3 r4 =
      wrap32 ((r1.val + 256 * r2.val + 65536 * r3.val + 16777216 * r4.val : Nat) : Int) := by
  have h1 := r1.isLt
  have h2 := r2.isLt
  have h3 := r3.isLt
  have e1 : 2 ^ 24 * r4.val ||| 2 ^ 16 * r3.val = 2 ^ 16 * (256 * r4.val + r3.val) := by
    have h : 2 ^ 24 * r4.val = 2 ^ 16 * (256 * r4.val) := by omega
    have hlt : 2 ^ 16 * r3.val < 2 ^ 24 := by omega
    rw [← Nat.mul_add_lt_is_or hlt]
    omega
  have e2 : 2 ^ 16 * (256 * r4.val + r3.val) ||| 2 ^ 8 * r2.val =
      2 ^ 8 * (65536 * r4.val + 256 * r3.val + r2.val) := by
    have hlt : 2 ^ 8 * r2.val < 2 ^ 16 := by omega
    rw [← Nat.mul_add_lt_is_or hlt]
    omega
  have e3 : 2 ^ 8 * (65536 * r4.val + 256 * r3.val + r2.val) ||| r1.val =
      r1.val + 256 * r2.val + 65536 * r3.val + 16777216 * r4.val := by
    have hlt : r1.val < 2 ^ 8 := by omega
    rw [← Nat.mul_add_lt_is_or hlt]
    omega
  rw [readLen, shlAnd_24, shlAnd_16, shlAnd_8, shlAnd_0, e1, e2, e3]

theorem wrap32_of_lt (n : Nat) (h : n < 2 ^ 31) : wrap32 (n : Int) = n := by
  unfold wrap32
  omega

/-! ### The byte array of `chatReadFile` -/

theorem cstr_of_terminated (s rest : List Byte) (hs : ∀ b ∈ s, b ≠ 0) :
    cstr (s ++ 0 :: rest) = some s := by
  have hmem : (0 : Byte) ∈ s ++ 0 :: rest := by simp
  unfold cstr
  rw [if_pos hmem, List.takeWhile_append_of_pos (by simpa using hs)]
  simp

theorem strlen_of_terminated (s rest : List Byte) (hs : ∀ b ∈ s, b ≠ 0) :
    strlen (s ++ 0 :: rest) = some s.length := by
  rw [strlen, cstr_of_terminated s rest hs]
  rfl

/-- C1: for every buffer whose byte 0 is 0, whose bytes 1 to 4 are the
little-endian encoding of a length `L` of at most 2^20, whatever the sign of
each byte as a `jbyte`, and which holds `L` payload bytes from offset 5 on,
the decoding of `chatReadFile` returns the byte array of exactly those `L`
payload bytes. -/
theorem chatReadFile_success_framing (r1 r2 r3 r4 : Byte) (payload rest : List Byte) (L : Nat)
    (hL : r1.val + 256 * r2.val + 65536 * r3.val + 16777216 * r4.val = L)
    (hle : L ≤ 2 ^ 20) (hlen : payload.length = L) :
    chatReadFile_decode (0 :: r1 :: r2 :: r3 :: r4 :: (payload ++ rest)) = some payload ∧
      (chatReadFile_decode (0 :: r1 :: r2 :: r3 :: r4 :: (payload ++ rest))).map List.length
        = some L := by
  have hdec : chatReadFile_decode (0 :: r1 :: r2 :: r3 :: r4 :: (payload ++ rest))
      = some payload := by
    have hlen32 : readLen r1 r2 r3 r4 = (L : Int) := by
      rw [readLen_eq, hL]
      exact wrap32_of_lt L (by omega)
    simp only [chatReadFile_decode, if_true, hlen32, List.drop_succ_cons, List.drop_zero]
    have hnew : NewByteArray (L : Int) = some (List.replicate L 0) := by
      simp [NewByteArray]
    rw [hnew, Option.some_bind]
    have hcond : (0 : Int) ≤ 0 ∧ (0 : Int) ≤ L ∧
        (0 : Int) + L ≤ ((List.replicate L (0 : Byte)).length : Int) ∧
        (L : Int) ≤ ((payload ++ rest).length : Int) := by
      simp only [List.length_replicate, List.length_append]
      omega
    rw [SetByteArrayRegion, if_pos hcond]
    simp [writeAt, ← hlen]
  exact ⟨hdec, by rw [hdec, Option.map_some', hlen]⟩

theorem chatReadFile_success_framing_witness :
    (byteOf 0x80).val + 256 * (byteOf 0x01).val + 65536 * (byteOf 0).val
      + 16777216 * (byteOf 0).val = 384 ∧
    384 ≤ 2 ^ 20 ∧ (List.replicate 384 (byteOf 7)).length = 384 ∧
    chatReadFile_decode
      (0 :: byteOf 0x80 :: byteOf 0x01 :: byteOf 0 :: byteOf 0 ::
        (List.replicate 384 (byteOf 7) ++ [byteOf 9])) = some (List.replicate 384 (byteOf 7)) ∧
    (chatReadFile_decode
      (0 :: byteOf 0x80 :: byteOf 0x01 :: byteOf 0 :: byteOf 0 ::
        (List.replicate 384 (byteOf 7) ++ [byteOf 9]))).map List.length = some 384 :=
  have hL : (byteOf 0x80).val + 256 * (byteOf 0x01).val + 65536 * (byteOf 0).val
      + 16777216 * (byteOf 0).val = 384 := by decide
  have hle : 384 ≤ 2 ^ 20 := by decide
  have hlen : (List.replicate 384 (byteOf 7)).length = 384 := List.length_replicate _ _
  ⟨hL, hle, hlen,
    chatReadFile_success_framing (byteOf 0x80) (byteOf 0x01) (byteOf 0) (byteOf 0)
      (List.replicate 384 (byteOf 7)) [byteOf 9] 384 hL hle hlen⟩

/-- On a buffer with a nonzero byte 0 followed by a C string `s` of `M` bytes,
`strlen(res)` counts byte 0 as well: the array has `M + 11` bytes, ten zero
bytes, then `s`, then the terminating NUL of `s`. -/
theorem chatReadFile_decode_error (d : Byte) (hd : d ≠ 0) (s rest : List Byte)
    (hs : ∀ b ∈ s, b ≠ 0) (hM : s.length + 11 < 2 ^ 31) :
    chatReadFile_decode (d :: (s ++ 0 :: rest)) = some (List.replicate 10 0 ++ s ++ [0]) := by
  have hds : ∀ b ∈ d :: s, b ≠ 0 := by
    intro b hb
    rcases List.mem_cons.1 hb with h | h
    · exact h ▸ hd
    · exact hs b h
  have hstr : strlen (d :: (s ++ 0 :: rest)) = some (s.length + 1) := by
    have h := strlen_of_terminated (d :: s) rest hds
    simpa using h
  have hw : wrap32 ((s.length + 1 : Nat) : Int) = (s.length : Int) + 1 := by
    rw [wrap32_of_lt _ (by omega)]
    push_cast
    rfl
  simp only [chatReadFile_decode]
  rw [if_neg hd, hstr, Option.some_bind]
  simp only [hw, List.drop_succ_cons, List.drop_zero]
  have hlt : (s.length : Int) + 1 + 10 < 2 ^ 31 := by omega
  have hnew : NewByteArray ((s.length : Int) + 1 + 10) = some (List.replicate (s.length + 11) 0) := by
    have h0 : (0 : Int) ≤ (s.length : Int) + 1 + 10 := by omega
    have ht : ((s.length : Int) + 1 + 10).toNat = s.length + 11 := by omega
    rw [NewByteArray, if_pos h0, ht]
  rw [if_pos hlt, hnew, Option.some_bind]
  have hcond : (0 : Int) ≤ 10 ∧ (0 : Int) ≤ (s.length : Int) + 1 ∧
      (10 : Int) + ((s.length : Int) + 1) ≤ ((List.replicate (s.length + 11) (0 : Byte)).length : Int) ∧
      (s.length : Int) + 1 ≤ ((s ++ 0 :: rest).length : Int) := by
    simp only [List.length_replicate, List.length_append, List.length_cons]
    omega
  have ht : ((s.length : Int) + 1).toNat = s.length + 1 := by omega
  have h10 : (10 : Int).toNat = 10 := rfl
  rw [SetByteArrayRegion, if_pos hcond, ht, h10]
  have htake : (s ++ 0 :: rest).take (s.length + 1) = s ++ [0] := by
    rw [List.take_append_eq_append_take]
    simp
  rw [htake]
  simp [writeAt]
  omega

/-- C2, the code at the failing input: byte 0 is 1 and the C string after it
is `E`, one byte long (`M = 1`). The array has 12 bytes, not `M + 10 = 11`:
the string byte stands at offset 10 and the NUL of the string follows it. -/
theorem chatReadFile_error_framing_off_by_one :
    chatReadFile_decode [1, 69, 0] = some [0, 0, 0, 0, 0, 0, 0, 0, 0, 0, 69, 0] ∧
      (chatReadFile_decode [1, 69, 0]).map List.length = some (1 + 11) := by
  have h := chatReadFile_decode_error 1 (by decide) [69] [] (by simp) (by decide)
  have h' : chatReadFile_decode [1, 69, 0] = some [0, 0, 0, 0, 0, 0, 0, 0, 0, 0, 69, 0] := h
  exact ⟨h', by rw [h']; rfl⟩

/-! ### Null strings -/

/-- C9: for a null host string `encode_to_utf8_chars` returns the empty C
string, a buffer whose first byte is 0, and every entry point passes that
empty string to the foreign function for each of its string parameters that
is null. -/
theorem encode_to_utf8_chars_null :
    encode_to_utf8_chars none = [0] ∧ cstr (encode_to_utf8_chars none) = some [] ∧
    (∀ (F : Foreign) (a b c : Option String),
      Java_chat_simplex_common_platform_CoreKt_chatMigrateInit F none b c =
        ((decode_to_utf8_string
            (F.chat_migrate_init [0] (encode_to_utf8_chars b) (encode_to_utf8_chars c)).1),
          (F.chat_migrate_init [0] (encode_to_utf8_chars b) (encode_to_utf8_chars c)).2) ∧
      Java_chat_simplex_common_platform_CoreKt_chatMigrateInit F a none c =
        ((decode_to_utf8_string
            (F.chat_migrate_init (encode_to_utf8_chars a) [0] (encode_to_utf8_chars c)).1),
          (F.chat_migrate_init (encode_to_utf8_chars a) [0] (encode_to_utf8_chars c)).2) ∧
      Java_chat_simplex_common_platform_CoreKt_chatMigrateInit F a b none =
        ((decode_to_utf8_string
            (F.chat_migrate_init (encode_to_utf8_chars a) (encode_to_utf8_chars b) [0]).1),
          (F.chat_migrate_init (encode_to_utf8_chars a) (encode_to_utf8_chars b) [0]).2)) ∧
    (∀ (F : Foreign) (controller : Int),
      Java_chat_simplex_common_platform_CoreKt_chatSendCmd F controller none =
        decode_to_utf8_string (F.chat_send_cmd controller [0])) ∧
    (∀ F : Foreign,
      Java_chat_simplex_common_platform_CoreKt_chatParseMarkdown F none = decode_to_utf8_string (F.chat_parse_markdown [0]) ∧
      Java_chat_simplex_common_platform_CoreKt_chatParseServer F none = decode_to_utf8_string (F.chat_parse_server [0])) ∧
    (∀ (F : Foreign) (a b : Option String),
      Java_chat_simplex_common_platform_CoreKt_chatPasswordHash F none b =
        decode_to_utf8_string (F.chat_password_hash [0] (encode_to_utf8_chars b)) ∧
      Java_chat_simplex_common_platform_CoreKt_chatPasswordHash F a none =
        decode_to_utf8_string (F.chat_password_hash (encode_to_utf8_chars a) [0])) ∧
    (∀ (F : Foreign) (buffer : List Byte),
      Java_chat_simplex_common_platform_CoreKt_chatWriteFile F none buffer =
        decode_to_utf8_string (F.chat_write_file [0] buffer (wrap32 buffer.length))) ∧
    (∀ (F : Foreign) (a b c : Option String),
      Java_chat_simplex_common_platform_CoreKt_chatReadFile F none b c =
        chatReadFile_decode
          (F.chat_read_file [0] (encode_to_utf8_chars b) (encode_to_utf8_chars c)) ∧
      Java_chat_simplex_common_platform_CoreKt_chatReadFile F a none c =
        chatReadFile_decode
          (F.chat_read_file (encode_to_utf8_chars a) [0] (encode_to_utf8_chars c)) ∧
      Java_chat_simplex_common_platform_CoreKt_chatReadFile F a b none =
        chatReadFile_decode
          (F.chat_read_file (encode_to_utf8_chars a) (encode_to_utf8_chars b) [0])) ∧
    (∀ (F : Foreign) (a b : Option String),
      Java_chat_simplex_common_platform_CoreKt_chatEncryptFile F none b =
        decode_to_utf8_string (F.chat_encrypt_file [0] (encode_to_utf8_chars b)) ∧
      Java_chat_simplex_common_platform_CoreKt_chatEncryptFile F a none =
        decode_to_utf8_string (F.chat_encrypt_file (encode_to_utf8_chars a) [0])) ∧
    (∀ (F : Foreign) (a b c d : Option String),
      Java_chat_simplex_common_platform_CoreKt_chatDecryptFile F none b c d =
        decode_to_utf8_string (F.chat_decrypt_file [0] (encode_to_utf8_chars b)
          (encode_to_utf8_chars c) (encode_to_utf8_chars d)) ∧
      Java_chat_simplex_common_platform_CoreKt_chatDecryptFile F a none c d =
        decode_to_utf8_string (F.chat_decrypt_file (encode_to_utf8_chars a) [0]
          (encode_to_utf8_chars c) (encode_to_utf8_chars d)) ∧
      Java_chat_simplex_common_platform_CoreKt_chatDecryptFile F a b none d =
        decode_to_utf8_string (F.chat_decrypt_file (encode_to_utf8_chars a)
          (encode_to_utf8_chars b) [0] (encode_to_utf8_chars d)) ∧
      Java_chat_simplex_common_platform_CoreKt_chatDecryptFile F a b c none =
        decode_to_utf8_string (F.chat_decrypt_file (encode_to_utf8_chars a)
          (encode_to_utf8_chars b) (encode_to_utf8_chars c) [0])) :=
  ⟨rfl, rfl, fun _ _ _ _ => ⟨rfl, rfl, rfl⟩, fun _ _ => rfl, fun _ => ⟨rfl, rfl⟩,
    fun _ _ _ => ⟨rfl, rfl⟩, fun _ _ => rfl, fun _ _ _ _ => ⟨rfl, rfl, rfl⟩,
    fun _ _ _ => ⟨rfl, rfl⟩, fun _ _ _ _ _ => ⟨rfl, rfl, rfl, rfl⟩⟩

/-! ### UTF-8 -/

theorem byteOf_val (n : Nat) : (byteOf n).val = n % 256 := rfl

theorem char_toNat_valid (c : Char) :
    c.toNat < 0x110000 ∧ ¬ (0xD800 ≤ c.toNat ∧ c.toNat < 0xE000) := by
  have h : c.toNat < 0xD800 ∨ (0xDFFF < c.toNat ∧ c.toNat < 0x110000) := c.valid
  omega

theorem contBits_cons_zero (x : Nat) (hx : x < 0x40) (bs : List Byte) :
    contBits (byteOf (0x80 + x) :: bs) 0 = some x := by
  have hv : (byteOf (0x80 + x)).val = 0x80 + x := by rw [byteOf_val]; omega
  simp only [contBits, List.get?_cons_zero, hv]
  have hx' : 0x80 + x - 0x80 = x := by omega
  rw [if_pos (by omega), hx']

theorem contBits_cons_succ (b : Byte) (bs : List Byte) (i : Nat) :
    contBits (b :: bs) (i + 1) = contBits bs i := by
  simp only [contBits, List.get?_cons_succ]

/-- Decoding at the encoding of a character gives the character back and
takes exactly the continuation bytes of the encoding. -/
theorem utf8DecodeStep_encode (c : Char) (tail : List Byte) :
    ∃ b0 more, utf8EncodeChar c = b0 :: more ∧
      utf8DecodeStep b0 (more ++ tail) = (c, more.length) := by
  obtain ⟨hmax, hsur⟩ := char_toNat_valid c
  by_cases h1 : c.toNat < 0x80
  · refine ⟨byteOf c.toNat, [], by simp [utf8EncodeChar, h1], ?_⟩
    have hv : (byteOf c.toNat).val = c.toNat := by rw [byteOf_val]; omega
    simp only [utf8DecodeStep, hv, if_pos h1, Char.ofNat_toNat, List.length_nil]
  by_cases h2 : c.toNat < 0x800
  · refine ⟨byteOf (0xC0 + c.toNat / 0x40), [byteOf (0x80 + c.toNat % 0x40)],
      by simp [utf8EncodeChar, h1, h2], ?_⟩
    have hv : (byteOf (0xC0 + c.toNat / 0x40)).val = 0xC0 + c.toNat / 0x40 := by
      rw [byteOf_val]; omega
    have hn : (0xC0 + c.toNat / 0x40 - 0xC0) * 0x40 + c.toNat % 0x40 = c.toNat := by omega
    simp only [utf8DecodeStep, hv, List.cons_append, List.nil_append]
    rw [if_neg (by omega), if_neg (by omega), if_pos (by omega),
      contBits_cons_zero _ (by omega)]
    simp only [hn, Char.ofNat_toNat, List.length_cons, List.length_nil]
  by_cases h3 : c.toNat < 0x10000
  · refine ⟨byteOf (0xE0 + c.toNat / 0x1000),
      [byteOf (0x80 + c.toNat / 0x40 % 0x40), byteOf (0x80 + c.toNat % 0x40)],
      by simp [utf8EncodeChar, h1, h2, h3], ?_⟩
    have hv : (byteOf (0xE0 + c.toNat / 0x1000)).val = 0xE0 + c.toNat / 0x1000 := by
      rw [byteOf_val]; omega
    have hn : (0xE0 + c.toNat / 0x1000 - 0xE0) * 0x1000 + c.toNat / 0x40 % 0x40 * 0x40
        + c.toNat % 0x40 = c.toNat := by omega
    simp only [utf8DecodeStep, hv, List.cons_append, List.nil_append]
    rw [if_neg (by omega), if_neg (by omega), if_neg (by omega), if_pos (by omega),
      contBits_cons_succ, contBits_cons_zero _ (by omega), contBits_cons_zero _ (by omega)]
    simp only [hn]
    rw [if_pos ⟨by omega, hsur⟩]
    simp only [Char.ofNat_toNat, List.length_cons, List.length_nil]
  · refine ⟨byteOf (0xF0 + c.toNat / 0x40000),
      [byteOf (0x80 + c.toNat / 0x1000 % 0x40), byteOf (0x80 + c.toNat / 0x40 % 0x40),
        byteOf (0x80 + c.toNat % 0x40)],
      by simp [utf8EncodeChar, h1, h2, h3], ?_⟩
    have hv : (byteOf (0xF0 + c.toNat / 0x40000)).val = 0xF0 + c.toNat / 0x40000 := by
      rw [byteOf_val]; omega
    have hn : (0xF0 + c.toNat / 0x40000 - 0xF0) * 0x40000 + c.toNat / 0x1000 % 0x40 * 0x1000
        + c.toNat / 0x40 % 0x40 * 0x40 + c.toNat % 0x40 = c.toNat := by omega
    simp only [utf8DecodeStep, hv, List.cons_append, List.nil_append]
    rw [if_neg (by omega), if_neg (by omega), if_neg (by omega), if_neg (by omega),
      if_pos (by omega), contBits_cons_succ, contBits_cons_succ, contBits_cons_succ,
      contBits_cons_zero _ (by omega), contBits_cons_zero _ (by omega),
      contBits_cons_zero _ (by omega)]
    simp only [hn]
    rw [if_pos ⟨by omega, hmax⟩]
    simp only [Char.ofNat_toNat, List.length_cons, List.length_nil]

/-- The decoder loop reads the encoding of a string back, with any fuel that
is at least the number of bytes. -/
theorem utf8DecodeLoop_encode (cs : List Char) (fuel : Nat)
    (h : (getBytesUTF8 cs).length ≤ fuel) : utf8DecodeLoop fuel (getBytesUTF8 cs) = cs := by
  induction cs generalizing fuel with
  | nil => cases fuel <;> rfl
  | cons c cs ih =>
    obtain ⟨b0, more, henc, hstep⟩ := utf8DecodeStep_encode c (getBytesUTF8 cs)
    have hbytes : getBytesUTF8 (c :: cs) = b0 :: (more ++ getBytesUTF8 cs) := by
      rw [getBytesUTF8, henc, List.cons_append]
    rw [hbytes] at h ⊢
    cases fuel with
    | zero => simp at h
    | succ f =>
      have hf : (getBytesUTF8 cs).length ≤ f := by
        simp only [List.length_cons, List.length_append] at h
        omega
      rw [utf8DecodeLoop, hstep]
      simp only [List.drop_left]
      rw [ih f hf]

/-- The number of bytes is enough fuel: more fuel decodes the same. -/
theorem utf8DecodeLoop_fuel (f g : Nat) (bs : List Byte) (hf : bs.length ≤ f)
    (hg : bs.length ≤ g) : utf8DecodeLoop f bs = utf8DecodeLoop g bs := by
  induction f generalizing g bs with
  | zero =>
    have hnil : bs = [] := List.length_eq_zero.1 (Nat.le_zero.1 hf)
    subst hnil
    cases g <;> rfl
  | succ f ih =>
    cases bs with
    | nil => cases g <;> rfl
    | cons b0 rest =>
      cases g with
      | zero => simp at hg
      | succ g =>
        have hdrop : (rest.drop (utf8DecodeStep b0 rest).2).length ≤ rest.length := by
          rw [List.length_drop]; omega
        simp only [List.length_cons] at hf hg
        rw [utf8DecodeLoop, utf8DecodeLoop, ih g _ (by omega) (by omega)]

theorem charsetDecodeUTF8_getBytes (s : String) :
    charsetDecodeUTF8 (getBytesUTF8 s.toList) = s := by
  rw [charsetDecodeUTF8, utf8DecodeLoop_encode s.toList _ (Nat.le_refl _)]
  rfl

theorem char_toNat_ne_zero (c : Char) (h : c ≠ Char.ofNat 0) : c.toNat ≠ 0 := by
  intro h0
  apply h
  rw [← Char.ofNat_toNat c, h0]

/-- The encoding of a character other than U+0000 has no zero byte. -/
theorem utf8EncodeChar_ne_zero (c : Char) (hc : c ≠ Char.ofNat 0) :
    ∀ b ∈ utf8EncodeChar c, b ≠ 0 := by
  have hn := char_toNat_ne_zero c hc
  have key : ∀ x : Nat, x % 256 ≠ 0 → byteOf x ≠ 0 := by
    intro x hx h
    apply hx
    have hv := congrArg Fin.val h
    rwa [byteOf_val] at hv
  obtain ⟨hmax, -⟩ := char_toNat_valid c
  intro b hb
  unfold utf8EncodeChar at hb
  simp only at hb
  split at hb
  · simp only [List.mem_singleton] at hb
    rw [hb]; exact key _ (by omega)
  split at hb
  · simp only [List.mem_cons, List.mem_singleton, List.not_mem_nil, or_false] at hb
    rcases hb with hb | hb <;> rw [hb] <;> exact key _ (by omega)
  split at hb
  · simp only [List.mem_cons, List.mem_singleton, List.not_mem_nil, or_false] at hb
    rcases hb with hb | hb | hb <;> rw [hb] <;> exact key _ (by omega)
  · simp only [List.mem_cons, List.mem_singleton, List.not_mem_nil, or_false] at hb
    rcases hb with hb | hb | hb | hb <;> rw [hb] <;> exact key _ (by omega)

theorem getBytesUTF8_ne_zero (cs : List Char) (h : ∀ c ∈ cs, c ≠ Char.ofNat 0) :
    ∀ b ∈ getBytesUTF8 cs, b ≠ 0 := by
  induction cs with
  | nil => intro b hb; simp [getBytesUTF8] at hb
  | cons c cs ih =>
    intro b hb
    rw [getBytesUTF8, List.mem_append] at hb
    rcases hb with hb | hb
    · exact utf8EncodeChar_ne_zero c (h c (by simp)) b hb
    · exact ih (fun d hd => h d (by simp [hd])) b hb

/-- The buffer `encode_to_utf8_chars` fills: the UTF-8 bytes and a NUL. -/
theorem encode_to_utf8_chars_some (s : String) :
    encode_to_utf8_chars (some s) = getBytesUTF8 s.toList ++ [0] := by
  simp [encode_to_utf8_chars, writeAt, List.replicate_succ']

/-- C3, amended: for every host string `S` of valid Unicode text that holds
no character U+0000, the empty string included, `encode_to_utf8_chars`
followed by `decode_to_utf8_string` yields a string equal to `S`. -/
theorem utf8_round_trip (s : String) (h : ∀ c ∈ s.toList, c ≠ Char.ofNat 0) :
    decode_to_utf8_string (encode_to_utf8_chars (some s)) = some s := by
  have h0 := getBytesUTF8_ne_zero s.toList h
  rw [encode_to_utf8_chars_some, decode_to_utf8_string,
    strlen_of_terminated _ [] h0, Option.map_some', List.take_left,
    charsetDecodeUTF8_getBytes]

theorem utf8_round_trip_witness :
    (∀ c ∈ (String.mk ['a', Char.ofNat 0xE9, Char.ofNat 0x20AC, Char.ofNat 0x1F600]).toList,
      c ≠ Char.ofNat 0) ∧
    decode_to_utf8_string (encode_to_utf8_chars
      (some (String.mk ['a', Char.ofNat 0xE9, Char.ofNat 0x20AC, Char.ofNat 0x1F600])))
      = some (String.mk ['a', Char.ofNat 0xE9, Char.ofNat 0x20AC, Char.ofNat 0x1F600]) :=
  have h : ∀ c ∈ (String.mk ['a', Char.ofNat 0xE9, Char.ofNat 0x20AC, Char.ofNat 0x1F600]).toList,
      c ≠ Char.ofNat 0 := by decide
  ⟨h, utf8_round_trip _ h⟩

/-- C3 fails as stated: the string `a`, U+0000, `b` is valid Unicode text; its
UTF-8 bytes hold a zero byte, `strlen` stops there, and the round trip yields
the string `a`. -/
theorem utf8_round_trip_counterexample :
    decode_to_utf8_string (encode_to_utf8_chars (some (String.mk ['a', Char.ofNat 0, 'b'])))
      = some (String.mk ['a']) ∧
    decode_to_utf8_string (encode_to_utf8_chars (some (String.mk ['a', Char.ofNat 0, 'b'])))
      ≠ some (String.mk ['a', Char.ofNat 0, 'b']) := by
  have h : decode_to_utf8_string
      (encode_to_utf8_chars (some (String.mk ['a', Char.ofNat 0, 'b'])))
      = some (String.mk ['a']) := by
    rw [encode_to_utf8_chars_some]
    rfl
  refine ⟨h, ?_⟩
  rw [h]
  decide

end SimpleX
